import Mathlib

/-!
Verification of the pronunciation scoring and prosody-analysis engine in
`pronunciation_analyzer.py` (functions `extract_audio_features`,
`analyze_prosody`, `calculate_advanced_score`, and the string metrics from
the `jellyfish` library that `calculate_advanced_score` calls).

Modelling conventions:
  * Python strings are `List Char` (Unicode code points).
  * Python floats are modelled as exact rationals `ℚ`; decimal literals
    such as `0.40` denote the corresponding exact rational.
  * The feature dictionary is an association list `List (String × ℚ)`;
    `dict.get(k, d)` is `featGet`, and dict truthiness is non-emptiness.
-/

namespace PronunciationAnalyzer

/-- Whitespace recognised by the Python `str.strip` / `str.split`
(restricted to the ASCII whitespace characters, which cover every input
appearing in this development). -/
def isPySpace (c : Char) : Bool :=
  c = ' ' || c = '\t' || c = '\n' || c = '\r' || c = '\x0b' || c = '\x0c'

/-- Lowercasing of a single character, as Python `str.lower` acts on the
ASCII and Latin-1 ranges (uppercase A-Z, and À-Þ except the multiplication
sign, map 32 code points up; everything else is fixed). -/
def pyCharLower (c : Char) : Char :=
  if ('A' ≤ c && c ≤ 'Z') || ('À' ≤ c && c ≤ 'Þ' && c ≠ '×') then
    Char.ofNat (c.toNat + 32)
  else c

/-- Python `s.lower()`. -/
def pyLower (s : List Char) : List Char := s.map pyCharLower

/-- Python `s.strip()`: drop leading and trailing whitespace. -/
def pyStrip (s : List Char) : List Char :=
  ((s.dropWhile isPySpace).reverse.dropWhile isPySpace).reverse

/-- Python `s.lower().strip()`, the normalisation applied to both texts at
the top of `calculate_advanced_score`. -/
def lowerStrip (s : List Char) : List Char := pyStrip (pyLower s)

/-- Accumulator-style worker for `pySplit`: `acc` holds the characters of
the word currently being read, in reverse. -/
def pySplitAux : List Char → List Char → List (List Char)
  | [], acc => if acc = [] then [] else [acc.reverse]
  | c :: rest, acc =>
    if isPySpace c then
      if acc = [] then pySplitAux rest []
      else acc.reverse :: pySplitAux rest []
    else pySplitAux rest (c :: acc)

/-- Python `s.split()` with no separator: split on runs of whitespace,
discarding empty tokens. -/
def pySplit (s : List Char) : List (List Char) := pySplitAux s []

/-- The apostrophe character, written by code point to keep the source
free of quote-escape literals. -/
def apostrophe : Char := Char.ofNat 39

/-- The chained `.replace("'", "").replace("?", "").replace(",", "").replace("¿", "")`
from `calculate_advanced_score`: since each pattern is a single character,
this is exactly a filter removing those characters. -/
def removePunct (s : List Char) : List Char :=
  s.filter (fun c => !(c = apostrophe || c = '?' || c = ',' || c = '¿'))

/-- Tokenisation used for the word-overlap score:
`text.replace(...).split()` applied to an already normalised text. -/
def toWords (s : List Char) : List (List Char) := pySplit (removePunct s)

/-- Python `features.get(key, default)` on the feature dictionary. -/
def featGet (features : List (String × ℚ)) (key : String) (default : ℚ) : ℚ :=
  match features.lookup key with
  | some v => v
  | none => default

/-- Embedding of `extract_audio_features`. The `librosa` load and the three
DSP reductions form the body of the `try:` block; they are external,
fallible computations, modelled as an `Except` value carrying the three
floats `(rms_energy, spectral_centroid, zcr)` on success. The function
builds the three-key dictionary on success and returns the empty
dictionary on any failure, exactly as the `except Exception` handler does. -/
def extract_audio_features (dsp : Except Unit (ℚ × ℚ × ℚ)) : List (String × ℚ) :=
  match dsp with
  | .ok (rms, centroid, zcr) =>
    [("rms_energy", rms), ("spectral_centroid", centroid), ("zcr", zcr)]
  | .error _ => []

/-- Feedback string appended when the speaker is too slow. -/
def fasterHint : String := "Try speaking a bit faster for more natural rhythm"

/-- Feedback string appended when the speaker is too fast. -/
def slowDownHint : String := "Slow down slightly to improve clarity and enunciation"

/-- Feedback string appended when the energy is low. -/
def lowVolumeHint : String := "Speak with more volume and confidence"

/-- Feedback string appended when the energy is high. -/
def highVolumeHint : String := "Try to moderate your volume slightly"

/-- Feedback string appended when the zero-crossing rate is high. -/
def articulationHint : String := "Focus on clear articulation of consonants"

/-- Embedding of `analyze_prosody`: three independent threshold checks
append at most one hint each to the feedback list, in the fixed order
rate, volume, articulation. -/
def analyze_prosody (features : List (String × ℚ)) (target_text : List Char) :
    List String :=
  let feedback : List String := []
  let expected_duration : ℚ := (target_text.length : ℚ) / 12
  let actual_duration : ℚ := featGet features "duration" 0
  let feedback :=
    if actual_duration > expected_duration * 1.5 then feedback ++ [fasterHint]
    else if actual_duration < expected_duration * 0.6 then feedback ++ [slowDownHint]
    else feedback
  let feedback :=
    if featGet features "rms_energy" 0 < 0.01 then feedback ++ [lowVolumeHint]
    else if featGet features "rms_energy" 0 > 0.2 then feedback ++ [highVolumeHint]
    else feedback
  let feedback :=
    if featGet features "zcr" 0 > 0.15 then feedback ++ [articulationHint]
    else feedback
  feedback

/-!
Embedding of the two `jellyfish` string metrics used by
`calculate_advanced_score`: `jellyfish.jaro_winkler_similarity` and
`jellyfish.levenshtein_distance`.
-/

/-- The flag-setting matching loop of the `jellyfish` Jaro similarity.
Walking the first string with index `i`, each character looks for the first
not-yet-flagged equal character of the second string inside the search
window `[i - searchRange, min (i + searchRange) (s2.length - 1)]`.
The loop returns the flags of the first string (built position by
position, as the source sets `s1_flags[i]` at step `i`), the final flags
of the second string, and the number of matched characters. The `getD`
defaults are never read: every probed index is inside `s2Flags`, whose
length is maintained equal to `s2.length`. -/
def jaroMatchLoop (s2 : List Char) (searchRange : ℕ) :
    List Char → ℕ → List Bool → List Bool × List Bool × ℕ
  | [], _, s2Flags => ([], s2Flags, 0)
  | c :: rest, i, s2Flags =>
    let lo := i - searchRange
    let hi := min (i + searchRange) (s2.length - 1)
    match (List.range' lo (hi + 1 - lo)).find?
        (fun j => !s2Flags.getD j true && (s2.getD j c == c)) with
    | some j =>
      let r := jaroMatchLoop s2 searchRange rest (i + 1) (s2Flags.set j true)
      (true :: r.1, r.2.1, r.2.2 + 1)
    | none =>
      let r := jaroMatchLoop s2 searchRange rest (i + 1) s2Flags
      (false :: r.1, r.2.1, r.2.2)

/-- The transposition-counting loop of the `jellyfish` Jaro similarity:
for each flagged character of the first string (paired with its flag), find
the next flagged position of the second string at or after the cursor `k`
and count a mismatch when the two characters differ. When no flagged
position remains (unreachable in context, because both strings carry the
same number of flags) the count is left unchanged. -/
def jaroTransLoop (s2 : List Char) (s2Flags : List Bool) :
    List (Char × Bool) → ℕ → ℕ → ℕ
  | [], _, t => t
  | (c, f) :: rest, k, t =>
    if f then
      match (List.range' k (s2.length - k)).find? (fun j => s2Flags.getD j false) with
      | some j =>
        jaroTransLoop s2 s2Flags rest (j + 1) (if s2.getD j c == c then t else t + 1)
      | none => jaroTransLoop s2 s2Flags rest k t
    else jaroTransLoop s2 s2Flags rest k t

/-- Length of the common prefix of two strings, as counted by the `while`
loop of the Winkler prefix adjustment. -/
def commonPrefixLen : List Char → List Char → ℕ
  | a :: s, b :: t => if a = b then commonPrefixLen s t + 1 else 0
  | _, _ => 0

/-- Embedding of `jellyfish` Jaro similarity: zero when either string is
empty or no characters match; otherwise the mean of the two match ratios
and the transposition-adjusted ratio. -/
def jaro_similarity (s1 s2 : List Char) : ℚ :=
  if s1.length = 0 ∨ s2.length = 0 then 0
  else
    let searchRange := max s1.length s2.length / 2 - 1
    let r := jaroMatchLoop s2 searchRange s1 0 (List.replicate s2.length false)
    let common_chars := r.2.2
    if common_chars = 0 then 0
    else
      let trans_count := jaroTransLoop s2 r.2.1 (s1.zip r.1) 0 0 / 2
      ((common_chars : ℚ) / s1.length + (common_chars : ℚ) / s2.length +
        ((common_chars : ℚ) - trans_count) / common_chars) / 3

/-- Embedding of `jellyfish.jaro_winkler_similarity` (default parameters):
the Jaro similarity, boosted when above 0.7 by the length of the common
prefix (capped at 4 characters and at the shorter length). -/
def jaro_winkler_similarity (s1 s2 : List Char) : ℚ :=
  let weight := jaro_similarity s1 s2
  if weight > 0.7 then
    let capLen := min (min s1.length s2.length) 4
    let p := commonPrefixLen (s1.take capLen) (s2.take capLen)
    weight + p * 0.1 * (1 - weight)
  else weight

/-- Embedding of `jellyfish.levenshtein_distance`: the classic unit-cost
edit distance, realised by the Mathlib dynamic-programming `levenshtein`
with the default cost structure (delete 1, insert 1, substitute 0 on equal
characters and 1 otherwise), which computes the same function as the
`jellyfish` matrix algorithm. -/
def levenshtein_distance (s1 s2 : List Char) : ℕ :=
  levenshtein Levenshtein.defaultCost s1 s2

/-!
Embedding of `calculate_advanced_score` and its four sub-scores.
-/

/-- The word-overlap sub-score: the size of the intersection of the two
word sets, divided by the length of the target word list (the source
divides by `len(target_words)`, the list, not the deduplicated set). -/
def word_score (target_words transcribed_words : List (List Char)) : ℚ :=
  let matching_words := target_words.dedup.filter (fun w => w ∈ transcribed_words)
  ((matching_words.length : ℚ) / (target_words.length : ℚ)) * 100

/-- The Levenshtein sub-score on the normalised strings, guarded against
an empty maximum length. -/
def lev_score_calc (s1 s2 : List Char) : ℚ :=
  let lev_distance := levenshtein_distance s1 s2
  let max_len := max s1.length s2.length
  if max_len > 0 then (1 - (lev_distance : ℚ) / (max_len : ℚ)) * 100 else 0

/-- The prosody sub-score: 100 unless the feature dictionary is non-empty
and the duration ratio falls outside the tolerance bands (85 outside
[0.6, 1.5], else 90 outside [0.7, 1.3]). A missing duration key defaults
to the expected duration itself. -/
def prosody_score (target_text : List Char) (audio_features : List (String × ℚ)) : ℚ :=
  if audio_features ≠ [] then
    let expected_duration : ℚ := (target_text.length : ℚ) / 12
    let actual_duration := featGet audio_features "duration" expected_duration
    let duration_ratio :=
      if expected_duration > 0 then actual_duration / expected_duration else 1
    if duration_ratio > 1.5 ∨ duration_ratio < 0.6 then 85
    else if duration_ratio > 1.3 ∨ duration_ratio < 0.7 then 90
    else 100
  else 100

/-- Python `int()` applied to a float: truncation towards zero. -/
def pyInt (q : ℚ) : ℤ := if q < 0 then ⌈q⌉ else ⌊q⌋

/-- Embedding of `calculate_advanced_score`: exact-match short circuit,
zero-word guard, then the weighted average of the four sub-scores,
truncated to an integer and clamped above at 100. -/
def calculate_advanced_score (target_text transcription : List Char)
    (audio_features : List (String × ℚ)) : ℤ :=
  let target_lower := lowerStrip target_text
  let transcription_lower := lowerStrip transcription
  if target_lower = transcription_lower then 100
  else
    let target_words := toWords target_lower
    let transcribed_words := toWords transcription_lower
    if target_words = [] then 0
    else
      let ws := word_score target_words transcribed_words
      let js := jaro_winkler_similarity target_lower transcription_lower * 100
      let ls := lev_score_calc target_lower transcription_lower
      let ps := prosody_score target_text audio_features
      let final_score := ws * 0.40 + js * 0.25 + ls * 0.20 + ps * 0.15
      min (pyInt final_score) 100

/-!
Counting lemmas for the Jaro matching and transposition loops, leading to
the bounds `0 ≤ jaro_winkler_similarity ≤ 1`.
-/

/-- Number of `true` entries of a flag list. -/
def countTrue (l : List Bool) : ℕ := (l.filter (fun b => b)).length

@[simp] theorem countTrue_nil : countTrue [] = 0 := rfl

@[simp] theorem countTrue_cons (b : Bool) (l : List Bool) :
    countTrue (b :: l) = (if b then 1 else 0) + countTrue l := by
  cases b <;> simp [countTrue, Nat.add_comm]

theorem countTrue_le_length (l : List Bool) : countTrue l ≤ l.length :=
  List.length_filter_le _ _

theorem countTrue_set_true (l : List Bool) (j : ℕ) (h : l.getD j true = false) :
    countTrue (l.set j true) = countTrue l + 1 := by
  induction l generalizing j with
  | nil => simp [List.getD] at h
  | cons b bs ih =>
    cases j with
    | zero =>
      simp only [List.getD_cons_zero] at h
      subst h
      simp [Nat.add_comm]
    | succ j =>
      simp only [List.getD_cons_succ] at h
      simp [ih j h, Nat.add_assoc]

/-- Loop invariants of `jaroMatchLoop`: the produced first-string flags
have one entry per character and carry exactly `common_chars` set flags,
the second-string flags keep their length and gain exactly `common_chars`
set flags. -/
theorem jaroMatchLoop_spec (s2 : List Char) (sr : ℕ) (l : List Char) :
    ∀ (i : ℕ) (flags : List Bool),
      (jaroMatchLoop s2 sr l i flags).1.length = l.length ∧
      (jaroMatchLoop s2 sr l i flags).2.1.length = flags.length ∧
      countTrue (jaroMatchLoop s2 sr l i flags).1 = (jaroMatchLoop s2 sr l i flags).2.2 ∧
      countTrue (jaroMatchLoop s2 sr l i flags).2.1 =
        countTrue flags + (jaroMatchLoop s2 sr l i flags).2.2 := by
  induction l with
  | nil => intro i flags; simp [jaroMatchLoop]
  | cons c rest ih =>
    intro i flags
    rcases hfind : (List.range' (i - sr) (min (i + sr) (s2.length - 1) + 1 - (i - sr))).find?
        (fun j => !flags.getD j true && (s2.getD j c == c)) with _ | j
    · have := ih (i + 1) flags
      simp only [jaroMatchLoop, hfind]
      simp only [List.length_cons, countTrue_cons, if_neg (Bool.false_ne_true)]
      exact ⟨by omega, this.2.1, by simp [this.2.2.1], this.2.2.2⟩
    · have hpred := List.find?_some hfind
      have hflag : flags.getD j true = false := by
        have := Bool.and_elim_left hpred
        simpa using this
      have hlt : j < flags.length := by
        by_contra hge
        rw [List.getD_eq_default] at hflag
        · exact Bool.noConfusion hflag
        · omega
      have hset := countTrue_set_true flags j hflag
      have := ih (i + 1) (flags.set j true)
      simp only [jaroMatchLoop, hfind]
      refine ⟨by simp [this.1], by simp [this.2.1], ?_, ?_⟩
      · simp [countTrue_cons, this.2.2.1, Nat.add_comm]
      · rw [this.2.2.2, hset]
        omega

/-- The transposition loop increments its accumulator at most once per
flagged character of the first string. -/
theorem jaroTransLoop_le (s2 : List Char) (s2Flags : List Bool) (l : List (Char × Bool)) :
    ∀ (k t : ℕ),
      jaroTransLoop s2 s2Flags l k t ≤ t + (l.filter (fun p => p.2)).length := by
  induction l with
  | nil => intro k t; simp [jaroTransLoop]
  | cons p rest ih =>
    intro k t
    obtain ⟨c, f⟩ := p
    cases f with
    | false => simpa [jaroTransLoop] using ih k t
    | true =>
      rcases hfind : (List.range' k (s2.length - k)).find? (fun j => s2Flags.getD j false)
          with _ | j
      · calc jaroTransLoop s2 s2Flags ((c, true) :: rest) k t
            = jaroTransLoop s2 s2Flags rest k t := by
              simp only [jaroTransLoop, hfind]
              simp
          _ ≤ t + (rest.filter (fun p => p.2)).length := ih k t
          _ ≤ t + (((c, true) :: rest).filter (fun p => p.2)).length := by
              simp
      · rcases hc : (s2.getD j c == c) with _ | _
        · calc jaroTransLoop s2 s2Flags ((c, true) :: rest) k t
              = jaroTransLoop s2 s2Flags rest (j + 1) (t + 1) := by
                simp only [jaroTransLoop, hfind]
                have hc2 : ¬ (s2[j]?.getD c = c) := by
                  simpa [List.getD_eq_getElem?_getD] using hc
                simp [hc2]
            _ ≤ (t + 1) + (rest.filter (fun p => p.2)).length := ih (j + 1) (t + 1)
            _ ≤ t + (((c, true) :: rest).filter (fun p => p.2)).length := by
                simp
                omega
        · calc jaroTransLoop s2 s2Flags ((c, true) :: rest) k t
              = jaroTransLoop s2 s2Flags rest (j + 1) t := by
                simp only [jaroTransLoop, hfind]
                have hc2 : s2[j]?.getD c = c := by
                  simpa [List.getD_eq_getElem?_getD] using hc
                simp [hc2]
            _ ≤ t + (rest.filter (fun p => p.2)).length := ih (j + 1) t
            _ ≤ t + (((c, true) :: rest).filter (fun p => p.2)).length := by
                simp

/-- Flagged pairs of a zip against equal-length flags count the set flags. -/
theorem zip_filter_snd_length (s1 : List Char) :
    ∀ flags : List Bool, s1.length = flags.length →
      ((s1.zip flags).filter (fun p => p.2)).length = countTrue flags := by
  induction s1 with
  | nil =>
    intro flags h
    cases flags with
    | nil => simp
    | cons b bs => simp at h
  | cons c rest ih =>
    intro flags h
    cases flags with
    | nil => simp at h
    | cons b bs =>
      simp only [List.length_cons, Nat.add_right_cancel_iff] at h
      cases b <;> simp [ih bs h, Nat.add_comm]

@[simp] theorem countTrue_replicate_false (n : ℕ) :
    countTrue (List.replicate n false) = 0 := by
  induction n with
  | zero => rfl
  | succ n ih => simpa using ih

theorem commonPrefixLen_le_left : ∀ s t : List Char, commonPrefixLen s t ≤ s.length
  | [], _ => by simp [commonPrefixLen]
  | _ :: _, [] => by simp [commonPrefixLen]
  | a :: s, b :: t => by
    by_cases h : a = b
    · simpa [commonPrefixLen, h] using commonPrefixLen_le_left s t
    · simp [commonPrefixLen, h]

/-- The Jaro similarity always lies in the unit interval. -/
theorem jaro_similarity_bounds (s1 s2 : List Char) :
    0 ≤ jaro_similarity s1 s2 ∧ jaro_similarity s1 s2 ≤ 1 := by
  simp only [jaro_similarity]
  split_ifs with h1 h2
  · norm_num
  · norm_num
  · push_neg at h1
    obtain ⟨hl1, hl2⟩ := h1
    set sr := max s1.length s2.length / 2 - 1 with hsr
    obtain ⟨len1, len2, cnt1, cnt2⟩ :=
      jaroMatchLoop_spec s2 sr s1 0 (List.replicate s2.length false)
    set R := jaroMatchLoop s2 sr s1 0 (List.replicate s2.length false) with hR
    set m := R.2.2 with hm
    set T := jaroTransLoop s2 R.2.1 (s1.zip R.1) 0 0 with hT
    have hm1 : 1 ≤ m := Nat.one_le_iff_ne_zero.mpr h2
    have hmle1 : m ≤ s1.length := by
      calc m = countTrue R.1 := cnt1.symm
        _ ≤ R.1.length := countTrue_le_length _
        _ = s1.length := len1
    have hmle2 : m ≤ s2.length := by
      have : countTrue R.2.1 = m := by
        rw [cnt2]; simp
      calc m = countTrue R.2.1 := this.symm
        _ ≤ R.2.1.length := countTrue_le_length _
        _ = s2.length := by rw [len2, List.length_replicate]
    have hTle : T ≤ m := by
      calc T ≤ 0 + ((s1.zip R.1).filter (fun p => p.2)).length :=
            jaroTransLoop_le s2 R.2.1 (s1.zip R.1) 0 0
        _ = countTrue R.1 := by
            rw [Nat.zero_add]; exact zip_filter_snd_length s1 R.1 len1.symm
        _ = m := cnt1
    have htle : T / 2 ≤ m := le_trans (Nat.div_le_self T 2) hTle
    have c1pos : (0:ℚ) < (s1.length : ℚ) := by
      exact_mod_cast Nat.pos_of_ne_zero hl1
    have c2pos : (0:ℚ) < (s2.length : ℚ) := by
      exact_mod_cast Nat.pos_of_ne_zero hl2
    have mpos : (0:ℚ) < (m : ℚ) := by exact_mod_cast hm1
    have e1 : (m:ℚ) / (s1.length : ℚ) ≤ 1 :=
      (div_le_one c1pos).mpr (by exact_mod_cast hmle1)
    have e1n : 0 ≤ (m:ℚ) / (s1.length : ℚ) := div_nonneg (by positivity) c1pos.le
    have e2 : (m:ℚ) / (s2.length : ℚ) ≤ 1 :=
      (div_le_one c2pos).mpr (by exact_mod_cast hmle2)
    have e2n : 0 ≤ (m:ℚ) / (s2.length : ℚ) := div_nonneg (by positivity) c2pos.le
    have e3 : ((m:ℚ) - (T / 2 : ℕ)) / (m:ℚ) ≤ 1 :=
      (div_le_one mpos).mpr (by
        have : (0:ℚ) ≤ ((T / 2 : ℕ) : ℚ) := by positivity
        linarith)
    have e3n : 0 ≤ ((m:ℚ) - (T / 2 : ℕ)) / (m:ℚ) :=
      div_nonneg (sub_nonneg.mpr (by exact_mod_cast htle)) mpos.le
    constructor
    · positivity
    · rw [div_le_one (by norm_num : (0:ℚ) < 3)]
      linarith

/-- The Jaro-Winkler similarity always lies in the unit interval. -/
theorem jaro_winkler_similarity_bounds (s1 s2 : List Char) :
    0 ≤ jaro_winkler_similarity s1 s2 ∧ jaro_winkler_similarity s1 s2 ≤ 1 := by
  obtain ⟨hn, hl⟩ := jaro_similarity_bounds s1 s2
  simp only [jaro_winkler_similarity]
  split_ifs with h
  · set w := jaro_similarity s1 s2 with hw
    set capLen := min (min s1.length s2.length) 4 with hcap
    set p := commonPrefixLen (s1.take capLen) (s2.take capLen) with hp
    have hple : p ≤ 4 := by
      calc p ≤ (s1.take capLen).length := commonPrefixLen_le_left _ _
        _ ≤ capLen := by simp [List.length_take]
        _ ≤ 4 := by omega
    have hfrac : (p:ℚ) * 0.1 ≤ 1 := by
      have : (p:ℚ) ≤ 4 := by exact_mod_cast hple
      nlinarith
    have hsub : (0:ℚ) ≤ 1 - w := sub_nonneg.mpr hl
    have hboost : (p:ℚ) * 0.1 * (1 - w) ≤ 1 * (1 - w) :=
      mul_le_mul_of_nonneg_right hfrac hsub
    have hboostn : (0:ℚ) ≤ (p:ℚ) * 0.1 * (1 - w) := by positivity
    constructor
    · linarith
    · linarith
  · exact ⟨hn, hl⟩

/-!
Properties of the embedded Levenshtein distance.
-/

theorem levenshtein_distance_nil_left (t : List Char) :
    levenshtein_distance [] t = t.length := by
  induction t with
  | nil => simp [levenshtein_distance]
  | cons y ys ih =>
    simp only [levenshtein_distance] at ih ⊢
    rw [levenshtein_nil_cons, ih]
    simp [Nat.add_comm]

theorem levenshtein_distance_nil_right (s : List Char) :
    levenshtein_distance s [] = s.length := by
  induction s with
  | nil => simp [levenshtein_distance]
  | cons x xs ih =>
    simp only [levenshtein_distance] at ih ⊢
    rw [levenshtein_cons_nil, ih]
    simp [Nat.add_comm]

theorem levenshtein_distance_le_subst (x y : Char) (s t : List Char) :
    levenshtein_distance (x :: s) (y :: t) ≤
      (if x = y then 0 else 1) + levenshtein_distance s t := by
  simp only [levenshtein_distance]
  rw [levenshtein_cons_cons]
  refine le_trans (min_le_right _ _) (le_trans (min_le_right _ _) ?_)
  simp

theorem levenshtein_distance_le_max :
    ∀ s t : List Char, levenshtein_distance s t ≤ max s.length t.length
  | [], t => by simp [levenshtein_distance_nil_left]
  | x :: s, [] => by simp [levenshtein_distance_nil_right]
  | x :: s, y :: t => by
    have ih := levenshtein_distance_le_max s t
    have h := levenshtein_distance_le_subst x y s t
    have : (if x = y then 0 else 1) ≤ 1 := by split_ifs <;> omega
    simp only [List.length_cons]
    omega

theorem levenshtein_distance_eq_zero_iff :
    ∀ s t : List Char, levenshtein_distance s t = 0 ↔ s = t
  | [], [] => by simp [levenshtein_distance]
  | [], y :: t => by simp [levenshtein_distance_nil_left]
  | x :: s, [] => by simp [levenshtein_distance_nil_right]
  | x :: s, y :: t => by
    have ih := levenshtein_distance_eq_zero_iff s t
    simp only [levenshtein_distance] at ih
    constructor
    · intro h
      simp only [levenshtein_distance] at h
      rw [levenshtein_cons_cons] at h
      simp only [Levenshtein.defaultCost_delete, Levenshtein.defaultCost_insert,
        Levenshtein.defaultCost_substitute] at h
      rcases Nat.min_eq_zero_iff.mp h with h1 | h1
      · omega
      rcases Nat.min_eq_zero_iff.mp h1 with h2 | h2
      · omega
      rcases Nat.add_eq_zero.mp h2 with ⟨h3, h4⟩
      have hxy : x = y := by
        by_contra hne
        simp [hne] at h3
      rw [hxy, ih.mp h4]
    · intro h
      injection h with h1 h2
      subst h1
      subst h2
      have hle := levenshtein_distance_le_subst x x s s
      simp at hle
      have h2 : levenshtein_distance s s = 0 := by
        simp only [levenshtein_distance]
        exact ih.mpr rfl
      simp only [levenshtein_distance] at hle h2 ⊢
      omega

/-!
Bounds on the four sub-scores and on the final score.
-/

theorem word_score_nonneg (tw trw : List (List Char)) : 0 ≤ word_score tw trw := by
  simp only [word_score]
  positivity

theorem word_score_le_100 (tw trw : List (List Char)) (h : tw ≠ []) :
    word_score tw trw ≤ 100 := by
  simp only [word_score]
  have hlen : (tw.dedup.filter (fun w => w ∈ trw)).length ≤ tw.length := by
    calc (tw.dedup.filter (fun w => w ∈ trw)).length
        ≤ tw.dedup.length := List.length_filter_le _ _
      _ ≤ tw.length := (List.dedup_sublist tw).length_le
  have hpos : (0:ℚ) < (tw.length : ℚ) := by
    have := List.length_pos.mpr h
    exact_mod_cast this
  have hdiv : ((tw.dedup.filter (fun w => w ∈ trw)).length : ℚ) / (tw.length : ℚ) ≤ 1 :=
    (div_le_one hpos).mpr (by exact_mod_cast hlen)
  linarith

theorem lev_score_calc_nonneg (s1 s2 : List Char) : 0 ≤ lev_score_calc s1 s2 := by
  simp only [lev_score_calc]
  split_ifs with h
  · have hd := levenshtein_distance_le_max s1 s2
    have hpos : (0:ℚ) < ((max s1.length s2.length : ℕ) : ℚ) := by exact_mod_cast h
    have hdiv : ((levenshtein_distance s1 s2 : ℕ) : ℚ) / ((max s1.length s2.length : ℕ) : ℚ) ≤ 1 :=
      (div_le_one hpos).mpr (by exact_mod_cast hd)
    linarith
  · norm_num

theorem lev_score_calc_le_100 (s1 s2 : List Char) : lev_score_calc s1 s2 ≤ 100 := by
  simp only [lev_score_calc]
  split_ifs with h
  · have hdiv : (0:ℚ) ≤ ((levenshtein_distance s1 s2 : ℕ) : ℚ) / ((max s1.length s2.length : ℕ) : ℚ) := by
      positivity
    linarith
  · norm_num

theorem lev_score_calc_lt_100 (s1 s2 : List Char) (h : s1 ≠ s2) :
    lev_score_calc s1 s2 < 100 := by
  have hmax : 0 < max s1.length s2.length := by
    rcases Nat.eq_zero_or_pos (max s1.length s2.length) with h0 | hpos
    · exfalso
      have h1 : s1 = [] := List.eq_nil_of_length_eq_zero (by omega)
      have h2 : s2 = [] := List.eq_nil_of_length_eq_zero (by omega)
      exact h (h1.trans h2.symm)
    · exact hpos
  have hd1 : 1 ≤ levenshtein_distance s1 s2 :=
    Nat.one_le_iff_ne_zero.mpr
      (fun h0 => h ((levenshtein_distance_eq_zero_iff s1 s2).mp h0))
  simp only [lev_score_calc]
  rw [if_pos hmax]
  have hpos : (0:ℚ) < ((max s1.length s2.length : ℕ) : ℚ) := by exact_mod_cast hmax
  have hdiv : (0:ℚ) < ((levenshtein_distance s1 s2 : ℕ) : ℚ) / ((max s1.length s2.length : ℕ) : ℚ) :=
    div_pos (by exact_mod_cast hd1) hpos
  linarith

theorem prosody_score_bounds (t : List Char) (f : List (String × ℚ)) :
    85 ≤ prosody_score t f ∧ prosody_score t f ≤ 100 := by
  simp only [prosody_score]
  split_ifs <;> norm_num

theorem pyInt_eq_floor (q : ℚ) (h : 0 ≤ q) : pyInt q = ⌊q⌋ := by
  simp only [pyInt]
  rw [if_neg (not_lt.mpr h)]

/-- Unfolding of `calculate_advanced_score` in the generic case: the two
guards fail and the weighted formula is taken. -/
theorem calculate_advanced_score_formula (t1 t2 : List Char) (f : List (String × ℚ))
    (h1 : lowerStrip t1 ≠ lowerStrip t2) (h2 : toWords (lowerStrip t1) ≠ []) :
    calculate_advanced_score t1 t2 f =
      min (pyInt (word_score (toWords (lowerStrip t1)) (toWords (lowerStrip t2)) * 0.40 +
        jaro_winkler_similarity (lowerStrip t1) (lowerStrip t2) * 100 * 0.25 +
        lev_score_calc (lowerStrip t1) (lowerStrip t2) * 0.20 +
        prosody_score t1 f * 0.15)) 100 := by
  simp only [calculate_advanced_score]
  rw [if_neg h1, if_neg h2]

/-- Nonnegativity of the weighted sum in the generic branch. -/
theorem final_sum_nonneg (t1 t2 : List Char) (f : List (String × ℚ)) :
    0 ≤ word_score (toWords (lowerStrip t1)) (toWords (lowerStrip t2)) * 0.40 +
      jaro_winkler_similarity (lowerStrip t1) (lowerStrip t2) * 100 * 0.25 +
      lev_score_calc (lowerStrip t1) (lowerStrip t2) * 0.20 +
      prosody_score t1 f * 0.15 := by
  have hws := word_score_nonneg (toWords (lowerStrip t1)) (toWords (lowerStrip t2))
  have hjw := (jaro_winkler_similarity_bounds (lowerStrip t1) (lowerStrip t2)).1
  have hls := lev_score_calc_nonneg (lowerStrip t1) (lowerStrip t2)
  have hps := (prosody_score_bounds t1 f).1
  nlinarith

/-- The score is always between 0 and 100, whatever the inputs. -/
theorem calculate_advanced_score_bounds (t1 t2 : List Char) (f : List (String × ℚ)) :
    0 ≤ calculate_advanced_score t1 t2 f ∧ calculate_advanced_score t1 t2 f ≤ 100 := by
  by_cases h1 : lowerStrip t1 = lowerStrip t2
  · simp only [calculate_advanced_score]
    rw [if_pos h1]
    norm_num
  · by_cases h2 : toWords (lowerStrip t1) = []
    · simp only [calculate_advanced_score]
      rw [if_neg h1, if_pos h2]
      norm_num
    · rw [calculate_advanced_score_formula t1 t2 f h1 h2]
      have hF := final_sum_nonneg t1 t2 f
      constructor
      · refine le_min ?_ (by norm_num)
        rw [pyInt_eq_floor _ hF]
        exact Int.floor_nonneg.mpr hF
      · exact min_le_right _ _

/-- When the normalised strings differ, the score is at most 99. -/
theorem calculate_advanced_score_le_99 (t1 t2 : List Char) (f : List (String × ℚ))
    (h1 : lowerStrip t1 ≠ lowerStrip t2) :
    calculate_advanced_score t1 t2 f ≤ 99 := by
  by_cases h2 : toWords (lowerStrip t1) = []
  · simp only [calculate_advanced_score]
    rw [if_neg h1, if_pos h2]
    norm_num
  · rw [calculate_advanced_score_formula t1 t2 f h1 h2]
    have hws1 := word_score_nonneg (toWords (lowerStrip t1)) (toWords (lowerStrip t2))
    have hws2 := word_score_le_100 (toWords (lowerStrip t1)) (toWords (lowerStrip t2)) h2
    have hjw := jaro_winkler_similarity_bounds (lowerStrip t1) (lowerStrip t2)
    have hls1 := lev_score_calc_nonneg (lowerStrip t1) (lowerStrip t2)
    have hls2 := lev_score_calc_lt_100 (lowerStrip t1) (lowerStrip t2) h1
    have hps := prosody_score_bounds t1 f
    have hF := final_sum_nonneg t1 t2 f
    have hlt : word_score (toWords (lowerStrip t1)) (toWords (lowerStrip t2)) * 0.40 +
        jaro_winkler_similarity (lowerStrip t1) (lowerStrip t2) * 100 * 0.25 +
        lev_score_calc (lowerStrip t1) (lowerStrip t2) * 0.20 +
        prosody_score t1 f * 0.15 < 100 := by nlinarith [hjw.1, hjw.2, hps.1, hps.2]
    have hfloor : pyInt (word_score (toWords (lowerStrip t1)) (toWords (lowerStrip t2)) * 0.40 +
        jaro_winkler_similarity (lowerStrip t1) (lowerStrip t2) * 100 * 0.25 +
        lev_score_calc (lowerStrip t1) (lowerStrip t2) * 0.20 +
        prosody_score t1 f * 0.15) ≤ 99 := by
      rw [pyInt_eq_floor _ hF]
      have : ⌊word_score (toWords (lowerStrip t1)) (toWords (lowerStrip t2)) * 0.40 +
          jaro_winkler_similarity (lowerStrip t1) (lowerStrip t2) * 100 * 0.25 +
          lev_score_calc (lowerStrip t1) (lowerStrip t2) * 0.20 +
          prosody_score t1 f * 0.15⌋ < (100:ℤ) := by
        rw [Int.floor_lt]
        push_cast
        linarith
      omega
    exact le_trans (min_le_left _ _) hfloor

/-- When the feature dictionary has no `duration` key, the prosody
sub-score is 100: the missing key defaults to the expected duration, so
the ratio is 1 (and an empty dictionary skips the whole check). -/
theorem prosody_score_eq_100_of_no_duration (t : List Char) (f : List (String × ℚ))
    (h : f.lookup "duration" = none) : prosody_score t f = 100 := by
  simp only [prosody_score]
  by_cases hf : f ≠ []
  · rw [if_pos hf]
    have hget : featGet f "duration" ((t.length : ℚ) / 12) = (t.length : ℚ) / 12 := by
      simp [featGet, h]
    rw [hget]
    by_cases he : ((t.length : ℚ) / 12) > 0
    · rw [if_pos he, div_self (ne_of_gt he)]
      norm_num
    · rw [if_neg he]
      norm_num
  · rw [if_neg hf]

end PronunciationAnalyzer

namespace PronunciationAnalyzer

attribute [local semireducible] Rat.add Rat.mul Rat.inv Rat.sub Rat.ofScientific

set_option maxRecDepth 40000

/-!
Verdicts on the specified properties.
-/

/-- C1: `calculate_advanced_score` returns 100 exactly when target and
transcription agree after lowercasing and stripping surrounding
whitespace; for every feature map, normalised-equal pairs score exactly
100 and pairs whose normalised forms differ score strictly below 100. -/
theorem claim_C1_exact_match_iff (target transcription : List Char)
    (features : List (String × ℚ)) :
    (calculate_advanced_score target transcription features = 100 ↔
      lowerStrip target = lowerStrip transcription) ∧
    (lowerStrip target ≠ lowerStrip transcription →
      calculate_advanced_score target transcription features < 100) := by
  have hmain : lowerStrip target ≠ lowerStrip transcription →
      calculate_advanced_score target transcription features < 100 := by
    intro h
    have := calculate_advanced_score_le_99 target transcription features h
    omega
  refine ⟨⟨?_, ?_⟩, hmain⟩
  · intro h
    by_contra hne
    have := hmain hne
    omega
  · intro h
    simp only [calculate_advanced_score]
    rw [if_pos h]

/-- Witness for C1 at concrete inputs: a casing and whitespace variant
scores 100, a genuinely different pair scores below 100. -/
theorem claim_C1_exact_match_iff_witness :
    calculate_advanced_score "Hola".data "  hola ".data [] = 100 ∧
    calculate_advanced_score "cat".data "dog".data [] < 100 :=
  ⟨(claim_C1_exact_match_iff "Hola".data "  hola ".data []).1.mpr (by decide),
   (claim_C1_exact_match_iff "cat".data "dog".data []).2 (by decide)⟩

/-- C2 counterexample: on target `¿Cómo estás hoy?` and transcription
`como estas hoy` the punctuation-stripped tokens do NOT fully match
(`cómo` and `estás` keep their accents), the word sub-score is not 100,
and the final score is 64, not strictly between 80 and 100. -/
theorem claim_C2_scenario_counterexample :
    word_score (toWords (lowerStrip "¿Cómo estás hoy?".data))
        (toWords (lowerStrip "como estas hoy".data)) ≠ 100 ∧
    calculate_advanced_score "¿Cómo estás hoy?".data "como estas hoy".data [] = 64 ∧
    ¬ (80 < calculate_advanced_score "¿Cómo estás hoy?".data "como estas hoy".data [] ∧
       calculate_advanced_score "¿Cómo estás hoy?".data "como estas hoy".data [] < 100) := by
  decide

/-- C2 amended: on target `¿Cómo estás hoy?` and transcription
`como estas hoy`, with any feature map lacking a duration key, only one of
the three target tokens (`hoy`) matches — the accented tokens `cómo` and
`estás` differ from `como` and `estas` — so the word sub-score is 100/3
and the final returned score is 64, which lies strictly between 60 and
80, not between 80 and 100. -/
theorem claim_C2_scenario_amended (features : List (String × ℚ))
    (h : features.lookup "duration" = none) :
    word_score (toWords (lowerStrip "¿Cómo estás hoy?".data))
        (toWords (lowerStrip "como estas hoy".data)) = 100 / 3 ∧
    calculate_advanced_score "¿Cómo estás hoy?".data "como estas hoy".data features = 64 := by
  constructor
  · decide
  · have hp : prosody_score "¿Cómo estás hoy?".data features = 100 :=
      prosody_score_eq_100_of_no_duration _ _ h
    rw [calculate_advanced_score_formula _ _ _ (by decide) (by decide), hp]
    decide

/-- Witness for C2 amended at the empty feature map. -/
theorem claim_C2_scenario_amended_witness :
    calculate_advanced_score "¿Cómo estás hoy?".data "como estas hoy".data [] = 64 :=
  (claim_C2_scenario_amended [] rfl).2

/-- C3 counterexample: on the empty feature map and the non-empty target
`any text` the analyzer returns TWO hints — the slow-down hint also fires,
because the missing duration defaults to 0, which is below 0.6 times the
expected duration — so the result is not the single low-volume hint. -/
theorem claim_C3_empty_features_counterexample :
    analyze_prosody [] "any text".data = [slowDownHint, lowVolumeHint] ∧
    analyze_prosody [] "any text".data ≠ [lowVolumeHint] ∧
    "any text".data ≠ [] := by
  decide

/-- C3 amended: `analyze_prosody` on an empty feature map and a non-empty
target returns exactly two hints, the slow-down hint followed by the
low-volume hint (missing duration defaults to 0, under 0.6 of the
expected duration; missing rms energy defaults to 0, under 0.01). -/
theorem claim_C3_empty_features_amended (target : List Char) (h : target ≠ []) :
    analyze_prosody [] target = [slowDownHint, lowVolumeHint] := by
  have hlen : (1:ℚ) ≤ (target.length : ℚ) := by
    have := List.length_pos.mpr h
    exact_mod_cast this
  have hpos : (0:ℚ) < (target.length : ℚ) / 12 * 0.6 := by nlinarith
  have hnneg : ¬ ((0:ℚ) > (target.length : ℚ) / 12 * 1.5) := by
    push_neg
    nlinarith
  simp only [analyze_prosody, featGet, List.lookup_nil]
  rw [if_neg (show ¬ (0:ℚ) > 0.15 by norm_num)]
  rw [if_pos (show (0:ℚ) < 0.01 by norm_num)]
  rw [if_neg hnneg]
  rw [if_pos hpos]
  rfl

/-- Witness for C3 amended at the target used by the specification. -/
theorem claim_C3_empty_features_amended_witness :
    analyze_prosody [] "any text".data = [slowDownHint, lowVolumeHint] :=
  claim_C3_empty_features_amended "any text".data (by decide)

/-- C4 counterexample: with an empty target AND an empty transcription the
exact-match short circuit fires first and the score is 100, not 0, so the
zero rule does not hold for every transcription. -/
theorem claim_C4_empty_target_counterexample :
    calculate_advanced_score "".data "".data [] = 100 ∧
    calculate_advanced_score "".data "".data [] ≠ 0 := by
  decide

/-- C4 amended: with an empty target, the score is 0 for every feature map
and every transcription whose lowercased, stripped form is non-empty (the
empty target tokenises to zero words); when the transcription also
normalises to the empty string, the exact-match rule returns 100 instead. -/
theorem claim_C4_empty_target_amended (transcription : List Char)
    (features : List (String × ℚ)) (h : lowerStrip transcription ≠ []) :
    calculate_advanced_score "".data transcription features = 0 := by
  have h1 : lowerStrip "".data ≠ lowerStrip transcription := by
    intro he
    exact h (he.symm.trans rfl)
  simp only [calculate_advanced_score]
  rw [if_neg h1, if_pos (show toWords (lowerStrip "".data) = [] from rfl)]

/-- Witness for C4 amended at a concrete transcription and feature map. -/
theorem claim_C4_empty_target_amended_witness :
    calculate_advanced_score "".data "hi".data [("duration", 3)] = 0 :=
  claim_C4_empty_target_amended "hi".data [("duration", 3)] (by decide)

/-- C5: with an empty transcription and a target that tokenises to at
least one word, the word sub-score is 0 yet the final score is not 0
(the prosody term alone contributes at least 12 points); concretely the
score of `hello world` against the empty transcription is 15, at most
40. -/
theorem claim_C5_empty_transcription :
    (∀ (target : List Char) (features : List (String × ℚ)),
        toWords (lowerStrip target) ≠ [] →
        word_score (toWords (lowerStrip target)) (toWords (lowerStrip "".data)) = 0 ∧
        calculate_advanced_score target "".data features ≠ 0) ∧
    calculate_advanced_score "hello world".data "".data [] = 15 ∧
    calculate_advanced_score "hello world".data "".data [] ≤ 40 := by
  refine ⟨?_, by decide, by decide⟩
  intro target features hw
  constructor
  · rw [show toWords (lowerStrip "".data) = [] from rfl]
    simp [word_score]
  · by_cases h1 : lowerStrip target = lowerStrip "".data
    · exfalso
      apply hw
      rw [h1]
      rfl
    · rw [calculate_advanced_score_formula target "".data features h1 hw]
      have hws := word_score_nonneg (toWords (lowerStrip target)) (toWords (lowerStrip "".data))
      have hjw := (jaro_winkler_similarity_bounds (lowerStrip target) (lowerStrip "".data)).1
      have hls := lev_score_calc_nonneg (lowerStrip target) (lowerStrip "".data)
      have hps := (prosody_score_bounds target features).1
      have hF := final_sum_nonneg target "".data features
      have h12 : (12:ℚ) ≤ word_score (toWords (lowerStrip target)) (toWords (lowerStrip "".data)) * 0.40 +
          jaro_winkler_similarity (lowerStrip target) (lowerStrip "".data) * 100 * 0.25 +
          lev_score_calc (lowerStrip target) (lowerStrip "".data) * 0.20 +
          prosody_score target features * 0.15 := by nlinarith
      have hmin : (12:ℤ) ≤ min (pyInt (word_score (toWords (lowerStrip target)) (toWords (lowerStrip "".data)) * 0.40 +
          jaro_winkler_similarity (lowerStrip target) (lowerStrip "".data) * 100 * 0.25 +
          lev_score_calc (lowerStrip target) (lowerStrip "".data) * 0.20 +
          prosody_score target features * 0.15)) 100 := by
        refine le_min ?_ (by norm_num)
        rw [pyInt_eq_floor _ hF]
        exact Int.le_floor.mpr (by push_cast; linarith)
      omega

/-- Witness for C5 at the concrete inputs of the specification. -/
theorem claim_C5_empty_transcription_witness :
    word_score (toWords (lowerStrip "hello world".data)) (toWords (lowerStrip "".data)) = 0 ∧
    calculate_advanced_score "hello world".data "".data [] ≠ 0 ∧
    calculate_advanced_score "hello world".data "".data [] ≤ 40 :=
  ⟨(claim_C5_empty_transcription.1 "hello world".data [] (by decide)).1,
   (claim_C5_empty_transcription.1 "hello world".data [] (by decide)).2,
   claim_C5_empty_transcription.2.2⟩

/-- C6: the score is an integer between 0 and 100 inclusive, for every
target, transcription and feature map (arbitrary, even negative, feature
values included). -/
theorem claim_C6_score_range (target transcription : List Char)
    (features : List (String × ℚ)) :
    0 ≤ calculate_advanced_score target transcription features ∧
    calculate_advanced_score target transcription features ≤ 100 :=
  calculate_advanced_score_bounds target transcription features

/-- C7: the prosody feedback is an in-order selection from the five fixed
hints (rate hints before volume hints before the articulation hint), has
at most 3 elements, and contains at most one hint per signal. -/
theorem claim_C7_prosody_shape (features : List (String × ℚ)) (target : List Char) :
    (analyze_prosody features target).Sublist
        [fasterHint, slowDownHint, lowVolumeHint, highVolumeHint, articulationHint] ∧
    (analyze_prosody features target).length ≤ 3 ∧
    ¬ (fasterHint ∈ analyze_prosody features target ∧
       slowDownHint ∈ analyze_prosody features target) ∧
    ¬ (lowVolumeHint ∈ analyze_prosody features target ∧
       highVolumeHint ∈ analyze_prosody features target) := by
  simp only [analyze_prosody]
  split_ifs <;> decide

/-- C8: feature extraction never propagates an error: it is a total
function of the fallible decode and DSP outcome, and every failure yields
the empty feature map. -/
theorem claim_C8_never_raises (dsp : Except Unit (ℚ × ℚ × ℚ)) :
    (∀ e : Unit, dsp = Except.error e → extract_audio_features dsp = []) ∧
    (∀ v : ℚ × ℚ × ℚ, dsp = Except.ok v →
      extract_audio_features dsp =
        [("rms_energy", v.1), ("spectral_centroid", v.2.1), ("zcr", v.2.2)]) := by
  constructor
  · rintro e rfl
    rfl
  · rintro ⟨a, b, c⟩ rfl
    rfl

/-- Witness for C8: a failed decode yields the empty map. -/
theorem claim_C8_never_raises_witness :
    extract_audio_features (Except.error ()) = [] :=
  (claim_C8_never_raises (Except.error ())).1 () rfl

/-- C9: the extracted feature map never contains a `duration` key — it is
either empty or has exactly the keys rms energy, spectral centroid and
zero-crossing rate, in that order. -/
theorem claim_C9_no_duration_key (dsp : Except Unit (ℚ × ℚ × ℚ)) :
    "duration" ∉ (extract_audio_features dsp).map Prod.fst ∧
    ((extract_audio_features dsp).map Prod.fst = [] ∨
      (extract_audio_features dsp).map Prod.fst =
        ["rms_energy", "spectral_centroid", "zcr"]) := by
  rcases dsp with e | v
  · constructor
    · simp [extract_audio_features]
    · left
      rfl
  · obtain ⟨a, b, c⟩ := v
    have hm : (extract_audio_features (Except.ok (a, b, c))).map Prod.fst =
        ["rms_energy", "spectral_centroid", "zcr"] := rfl
    constructor
    · rw [hm]
      decide
    · right
      exact hm

/-- C10: the exact-match short circuit precedes the zero-word rule: any
pair with equal normalised forms scores 100 for every feature map, even
when the target tokenises to zero words, as the target `?` against the
transcription ` ? ` shows. -/
theorem claim_C10_short_circuit_first :
    (∀ (target transcription : List Char) (features : List (String × ℚ)),
        lowerStrip target = lowerStrip transcription →
        calculate_advanced_score target transcription features = 100) ∧
    calculate_advanced_score "?".data " ? ".data [] = 100 ∧
    toWords (lowerStrip "?".data) = [] := by
  refine ⟨?_, by decide, by decide⟩
  intro t1 t2 f h
  simp only [calculate_advanced_score]
  rw [if_pos h]

/-- Witness for C10: a normalised-equal pair with zero-word tokenisation
scores 100 despite a feature map being present. -/
theorem claim_C10_short_circuit_first_witness :
    calculate_advanced_score "¿?".data " ¿? ".data [("duration", 42)] = 100 :=
  claim_C10_short_circuit_first.1 "¿?".data " ¿? ".data [("duration", 42)] (by decide)

end PronunciationAnalyzer
